import Mathlib

/-!
Verification of the Delay-and-Probability-Discounting task core
(`src/Delay-Probability-Discounting/task.js`).

The titration core is embedded shallowly: per-condition bracket state is the
structure `TrialParameters`, the bracket updater `updateParameters` is a pure
function returning the new state together with an optional diagnostic message
(the source logs to the console and returns early on an invalid response), and
the reward sampler `getRewardValue` takes the uniform draw `Math.random()` as
an explicit parameter `u : ℚ`.  JavaScript numbers are modelled as rationals.
-/

/-- Per-condition trial parameters, as built in `prepareSettings`
(fields `type`, `temporal_delay` / `probability`, `count`, `tmin`, `tmax`,
`bmin`, `bmax`, `ip`).  `ip = none` models the initial `undefined`. -/
structure TrialParameters where
  type : String := ""
  temporal_delay : ℚ := 0
  probability : ℚ := 0
  count : ℕ := 0
  tmin : ℚ := 0
  tmax : ℚ := 0
  bmin : ℚ := 0
  bmax : ℚ := 0
  ip : Option ℚ := none
  deriving Repr, DecidableEq

/-- The `case 'A'` branch body of `updateParameters`: the subject chose the
variable (offered) reward.  Mirrors lines 480-492 of task.js. -/
def updateCaseA (reword : ℚ) (p : TrialParameters) : TrialParameters :=
  if reword < p.bmin then
    { p with bmax := 0, bmin := reword }
  else if reword ≤ p.tmin then
    { p with tmax := p.tmin, tmin := reword }
  else
    { p with tmax := reword }

/-- The `case 'B'` branch body of `updateParameters`: the subject chose the
standard reward.  Mirrors lines 494-506 of task.js. -/
def updateCaseB (reword : ℚ) (p : TrialParameters) (standard : ℚ) : TrialParameters :=
  if p.tmin < reword then
    { p with tmax := standard, tmin := reword }
  else if p.bmin < reword then
    { p with bmax := p.bmin, bmin := reword }
  else
    { p with bmax := reword }

/-- The indifference-point check performed after the switch in
`updateParameters` (lines 515-517 of task.js). -/
def applyIpCheck (p : TrialParameters) (reword threshold : ℚ) : TrialParameters :=
  if p.tmax - p.bmax ≤ threshold then { p with ip := some reword } else p

/-- Diagnostic text logged by `updateParameters` on an invalid response. -/
def invalidResponseMsg : String := "invalid response"

/-- `updateParameters(response, reword, parameters, standard, threshold)`
(task.js lines 478-518).  The source mutates `parameters` in place and logs on
the `default` switch branch before returning early; here the new state is
returned together with the optional diagnostic. -/
def updateParameters (response : String) (reword : ℚ) (p : TrialParameters)
    (standard threshold : ℚ) : TrialParameters × Option String :=
  if response = "A" then
    (applyIpCheck (updateCaseA reword p) reword threshold, none)
  else if response = "B" then
    (applyIpCheck (updateCaseB reword p standard) reword threshold, none)
  else
    (p, some invalidResponseMsg)

/-- The two valid options of the spec, section 4.3. -/
inductive ChosenOption
  | Variable
  | Standard
  deriving Repr, DecidableEq

/-- Written from the words of spec section 4.3 (`applyChoice`), independently of
the source: the six-branch case analysis with the stated boundary
inclusivity, followed by the convergence check. -/
def applyChoiceSpec (choice : ChosenOption) (offeredReward : ℚ)
    (c : TrialParameters) (standardAmount convergenceThreshold : ℚ) :
    TrialParameters :=
  let c1 :=
    match choice with
    | .Variable =>
      if offeredReward < c.bmin then
        { c with bmax := 0, bmin := offeredReward }
      else if offeredReward ≤ c.tmin then
        { c with tmax := c.tmin, tmin := offeredReward }
      else
        { c with tmax := offeredReward }
    | .Standard =>
      if c.tmin < offeredReward then
        { c with tmax := standardAmount, tmin := offeredReward }
      else if c.bmin < offeredReward then
        { c with bmax := c.bmin, bmin := offeredReward }
      else
        { c with bmax := offeredReward }
  if c1.tmax - c1.bmax ≤ convergenceThreshold then
    { c1 with ip := some offeredReward }
  else
    c1

/-- C1: for every condition and every valid choice, `updateParameters` performs
exactly the six-branch case analysis of spec section 4.3 with the stated
boundary inclusivity: the updated state on choice 'A' (Variable) and on
choice 'B' (Standard) coincides with `applyChoiceSpec`, which was written
from the spec's words, so in every branch exactly the bracket fields the spec
names are modified and no others. -/
theorem claim_C1 (reword : ℚ) (p : TrialParameters) (standard threshold : ℚ) :
    (updateParameters "A" reword p standard threshold).1 =
      applyChoiceSpec .Variable reword p standard threshold ∧
    (updateParameters "B" reword p standard threshold).1 =
      applyChoiceSpec .Standard reword p standard threshold := by
  constructor <;>
    simp [updateParameters, updateCaseA, updateCaseB, applyIpCheck,
      applyChoiceSpec]

/-- The initial bracket state of every titration condition, as built in
`prepareSettings` (task.js lines 363-391): `tmin = tmax = standard`,
`bmin = bmax = 0`, `count = 0`, `ip` unset. -/
def initialParameters (standard : ℚ) : TrialParameters :=
  { tmin := standard, tmax := standard, bmin := 0, bmax := 0 }

/-- The ordering invariant of the spec: `bmax <= bmin <= tmin <= tmax`. -/
def BracketOrdered (p : TrialParameters) : Prop :=
  p.bmax ≤ p.bmin ∧ p.bmin ≤ p.tmin ∧ p.tmin ≤ p.tmax

instance (p : TrialParameters) : Decidable (BracketOrdered p) := by
  unfold BracketOrdered; infer_instance

/-- Full inductive invariant used in the preservation proofs:
nonnegative lower bound, bracket ordering and the upper bound `standard`. -/
def BracketInv (standard : ℚ) (p : TrialParameters) : Prop :=
  0 ≤ p.bmax ∧ BracketOrdered p ∧ p.tmax ≤ standard

/-- One call of `updateParameters` with a valid chosen option and an offered
reward lying in the condition's current `[bmax, tmax]` range (as the reward
sampler guarantees). -/
inductive UpdateStep (standard threshold : ℚ) :
    TrialParameters → TrialParameters → Prop
  | mk (response : String) (reword : ℚ) (p : TrialParameters)
      (hvalid : response = "A" ∨ response = "B")
      (hlo : p.bmax ≤ reword) (hhi : reword ≤ p.tmax) :
      UpdateStep standard threshold p
        (updateParameters response reword p standard threshold).1

/-- Any finite sequence of in-range valid `updateParameters` calls. -/
def ReachableBracket (standard threshold : ℚ) :
    TrialParameters → TrialParameters → Prop :=
  Relation.ReflTransGen (UpdateStep standard threshold)

lemma applyIpCheck_tmax (p : TrialParameters) (r th : ℚ) :
    (applyIpCheck p r th).tmax = p.tmax := by
  unfold applyIpCheck; split <;> rfl

lemma applyIpCheck_tmin (p : TrialParameters) (r th : ℚ) :
    (applyIpCheck p r th).tmin = p.tmin := by
  unfold applyIpCheck; split <;> rfl

lemma applyIpCheck_bmax (p : TrialParameters) (r th : ℚ) :
    (applyIpCheck p r th).bmax = p.bmax := by
  unfold applyIpCheck; split <;> rfl

lemma applyIpCheck_bmin (p : TrialParameters) (r th : ℚ) :
    (applyIpCheck p r th).bmin = p.bmin := by
  unfold applyIpCheck; split <;> rfl

lemma applyIpCheck_ip (p : TrialParameters) (r th : ℚ) :
    (applyIpCheck p r th).ip =
      if p.tmax - p.bmax ≤ th then some r else p.ip := by
  unfold applyIpCheck; split <;> simp_all

lemma updateCaseA_ip (r : ℚ) (p : TrialParameters) :
    (updateCaseA r p).ip = p.ip := by
  unfold updateCaseA; split_ifs <;> rfl

lemma updateCaseB_ip (r : ℚ) (p : TrialParameters) (s : ℚ) :
    (updateCaseB r p s).ip = p.ip := by
  unfold updateCaseB; split_ifs <;> rfl

lemma bracketInv_applyIpCheck (S : ℚ) (p : TrialParameters) (r th : ℚ) :
    BracketInv S (applyIpCheck p r th) ↔ BracketInv S p := by
  unfold BracketInv BracketOrdered
  rw [applyIpCheck_tmax, applyIpCheck_tmin, applyIpCheck_bmax,
    applyIpCheck_bmin]

lemma bracketInv_updateCaseA (S : ℚ) (r : ℚ) (p : TrialParameters)
    (hInv : BracketInv S p) (hlo : p.bmax ≤ r) (hhi : r ≤ p.tmax) :
    BracketInv S (updateCaseA r p) := by
  obtain ⟨h0, ⟨hbb, hbt, htt⟩, hS⟩ := hInv
  unfold updateCaseA
  split_ifs with h1 h2 <;>
    refine ⟨?_, ⟨?_, ?_, ?_⟩, ?_⟩ <;> simp <;> linarith

lemma bracketInv_updateCaseB (S : ℚ) (r : ℚ) (p : TrialParameters)
    (hInv : BracketInv S p) (hlo : p.bmax ≤ r) (hhi : r ≤ p.tmax) :
    BracketInv S (updateCaseB r p S) := by
  obtain ⟨h0, ⟨hbb, hbt, htt⟩, hS⟩ := hInv
  unfold updateCaseB
  split_ifs with h1 h2 <;>
    refine ⟨?_, ⟨?_, ?_, ?_⟩, ?_⟩ <;> simp <;> linarith

lemma bracketInv_step {S th : ℚ} {p q : TrialParameters}
    (hInv : BracketInv S p) (hstep : UpdateStep S th p q) : BracketInv S q := by
  rcases hstep with ⟨response, r, p, hvalid, hlo, hhi⟩
  rcases hvalid with h | h <;> subst h <;>
    simp only [updateParameters, String.reduceEq, reduceIte] <;>
    rw [bracketInv_applyIpCheck]
  · exact bracketInv_updateCaseA S r p hInv hlo hhi
  · exact bracketInv_updateCaseB S r p hInv hlo hhi

lemma bracketInv_reachable {S th : ℚ} {p q : TrialParameters}
    (hInv : BracketInv S p) (hreach : ReachableBracket S th p q) :
    BracketInv S q := by
  induction hreach with
  | refl => exact hInv
  | tail _ hstep ih => exact bracketInv_step ih hstep

lemma bracketInv_initial (S : ℚ) (hS : 0 ≤ S) :
    BracketInv S (initialParameters S) := by
  unfold BracketInv BracketOrdered initialParameters
  refine ⟨le_refl 0, ⟨le_refl 0, hS, le_refl S⟩, le_refl S⟩

/-- C2 counterexample: from the initial bracket (standard = 1000), a single
`updateParameters` call with the valid option 'B' and offered reward 1500
(outside the current `[bmax, tmax]` range) already violates the ordering
`bmax <= bmin <= tmin <= tmax`, so the claim as stated (which does not
constrain the offered reward) is false. -/
theorem claim_C2_cex :
    ¬ BracketOrdered
      (updateParameters "B" 1500 (initialParameters 1000) 1000 50).1 := by
  simp only [updateParameters, String.reduceEq, reduceIte]
  norm_num [updateCaseB, applyIpCheck, initialParameters, BracketOrdered]

/-- C2 (amended): the ordering invariant `bmax <= bmin <= tmin <= tmax` holds
after any sequence of valid `updateParameters` calls from the initial bracket,
provided each call's offered reward lies in the condition's current
`[bmax, tmax]` range (as the reward sampler guarantees) and the standard
amount is nonnegative. -/
theorem claim_C2 (standard threshold : ℚ) (hstd : 0 ≤ standard)
    (q : TrialParameters)
    (hreach : ReachableBracket standard threshold
      (initialParameters standard) q) :
    BracketOrdered q :=
  (bracketInv_reachable (bracketInv_initial standard hstd) hreach).2.1

theorem claim_C2_witness :
    BracketOrdered (updateParameters "B" 500 (initialParameters 1000) 1000 50).1 :=
  claim_C2 1000 50 (by norm_num) _
    (Relation.ReflTransGen.single
      (UpdateStep.mk "B" 500 (initialParameters 1000) (Or.inr rfl)
        (by norm_num [initialParameters]) (by norm_num [initialParameters])))

/-- C10: starting from the initial bracket, if every `updateParameters` call
receives a valid option and an offered reward in the current `[bmax, tmax]`
range (as the sampler guarantees), then `tmax <= standard` holds after every
call. -/
theorem claim_C10 (standard threshold : ℚ) (hstd : 0 ≤ standard)
    (q : TrialParameters)
    (hreach : ReachableBracket standard threshold
      (initialParameters standard) q) :
    q.tmax ≤ standard :=
  (bracketInv_reachable (bracketInv_initial standard hstd) hreach).2.2

theorem claim_C10_witness :
    (updateParameters "A" 300 (initialParameters 1000) 1000 50).1.tmax ≤ 1000 :=
  claim_C10 1000 50 (by norm_num) _
    (Relation.ReflTransGen.single
      (UpdateStep.mk "A" 300 (initialParameters 1000) (Or.inl rfl)
        (by norm_num [initialParameters]) (by norm_num [initialParameters])))

/-- C3: after every `updateParameters` call with a valid chosen option,
regardless of which branch fired, `ip` is set to the offered reward exactly
when the post-update bracket width `tmax - bmax` is at most the threshold;
when the width exceeds the threshold, `ip` is left unchanged. -/
theorem claim_C3 (response : String)
    (hvalid : response = "A" ∨ response = "B") (reword : ℚ)
    (p : TrialParameters) (standard threshold : ℚ) :
    (updateParameters response reword p standard threshold).1.ip =
      if (updateParameters response reword p standard threshold).1.tmax -
          (updateParameters response reword p standard threshold).1.bmax ≤
          threshold
      then some reword else p.ip := by
  rcases hvalid with h | h <;> subst h <;>
    simp only [updateParameters, String.reduceEq, reduceIte] <;>
    rw [applyIpCheck_tmax, applyIpCheck_bmax, applyIpCheck_ip]
  · rw [updateCaseA_ip]
  · rw [updateCaseB_ip]

theorem claim_C3_witness :
    (updateParameters "A" 100 (initialParameters 1000) 1000 50).1.ip =
      if (updateParameters "A" 100 (initialParameters 1000) 1000 50).1.tmax -
          (updateParameters "A" 100 (initialParameters 1000) 1000 50).1.bmax ≤
          50
      then some 100 else (initialParameters 1000).ip :=
  claim_C3 "A" (Or.inl rfl) 100 (initialParameters 1000) 1000 50

/-- C6: for every response value other than the two valid options 'A' and
'B', `updateParameters` returns the condition state unchanged — no bracket
field is mutated and `ip` is not set, since the convergence check is never
reached — and surfaces the diagnostic message instead of continuing. -/
theorem claim_C6 (response : String) (hA : response ≠ "A")
    (hB : response ≠ "B") (reword : ℚ) (p : TrialParameters)
    (standard threshold : ℚ) :
    updateParameters response reword p standard threshold =
      (p, some invalidResponseMsg) := by
  simp [updateParameters, hA, hB]

theorem claim_C6_witness :
    updateParameters "X" 100 (initialParameters 1000) 1000 50 =
      (initialParameters 1000, some invalidResponseMsg) :=
  claim_C6 "X" (by decide) (by decide) 100 (initialParameters 1000) 1000 50

/-- `getRewardValue(parameters, step)` (task.js lines 437-441): the offered
reward is `Math.round(Math.random() * (tmax/step - bmax/step) + bmax/step) *
step`.  The uniform draw `Math.random()` is the explicit parameter `u`, and
`Math.round` (round half up) is Mathlib's `round`. -/
def getRewardValue (parameters : TrialParameters) (step u : ℚ) : ℚ :=
  let tmax := parameters.tmax / step
  let bmax := parameters.bmax / step
  (round (u * (tmax - bmax) + bmax) : ℚ) * step

lemma round_mono_rat {x y : ℚ} (h : x ≤ y) : round x ≤ round y := by
  rw [round_eq, round_eq]
  exact Int.floor_mono (by linarith)

/-- Range and quantization facts about the sampler, shared by several
claims: with bracket endpoints that are the multiples `a * step` and
`b * step` and a draw `u ∈ [0, 1]`, the sampled reward is a multiple of
`step` inside `[bmax, tmax]`. -/
lemma getRewardValue_bounds (p : TrialParameters) (step u : ℚ) (a b : ℤ)
    (ha : p.bmax = (a : ℚ) * step) (hb : p.tmax = (b : ℚ) * step)
    (hstep : 0 < step) (hab : p.bmax ≤ p.tmax)
    (hu0 : 0 ≤ u) (hu1 : u ≤ 1) :
    (∃ k : ℤ, getRewardValue p step u = (k : ℚ) * step) ∧
    p.bmax ≤ getRewardValue p step u ∧
    getRewardValue p step u ≤ p.tmax := by
  have htd : p.tmax / step = (b : ℚ) := by rw [hb]; field_simp
  have hbd : p.bmax / step = (a : ℚ) := by rw [ha]; field_simp
  have hab' : (a : ℚ) ≤ (b : ℚ) := by
    rw [ha, hb] at hab
    exact le_of_mul_le_mul_right hab hstep
  have hx0 : (a : ℚ) ≤ u * ((b : ℚ) - (a : ℚ)) + (a : ℚ) := by
    have := mul_nonneg hu0 (sub_nonneg.mpr hab')
    linarith
  have hx1 : u * ((b : ℚ) - (a : ℚ)) + (a : ℚ) ≤ (b : ℚ) := by
    have h1 : 0 ≤ (1 - u) * ((b : ℚ) - (a : ℚ)) :=
      mul_nonneg (by linarith) (sub_nonneg.mpr hab')
    nlinarith
  have hval : getRewardValue p step u =
      (round (u * ((b : ℚ) - (a : ℚ)) + (a : ℚ)) : ℚ) * step := by
    unfold getRewardValue
    rw [htd, hbd]
  have hlo : a ≤ round (u * ((b : ℚ) - (a : ℚ)) + (a : ℚ)) := by
    have := round_mono_rat hx0
    rwa [round_intCast] at this
  have hhi : round (u * ((b : ℚ) - (a : ℚ)) + (a : ℚ)) ≤ b := by
    have := round_mono_rat hx1
    rwa [round_intCast] at this
  refine ⟨⟨round (u * ((b : ℚ) - (a : ℚ)) + (a : ℚ)), hval⟩, ?_, ?_⟩
  · rw [hval, ha]
    have : (a : ℚ) ≤ (round (u * ((b : ℚ) - (a : ℚ)) + (a : ℚ)) : ℚ) := by
      exact_mod_cast hlo
    exact mul_le_mul_of_nonneg_right this (le_of_lt hstep)
  · rw [hval, hb]
    have : ((round (u * ((b : ℚ) - (a : ℚ)) + (a : ℚ)) : ℤ) : ℚ) ≤ (b : ℚ) := by
      exact_mod_cast hhi
    exact mul_le_mul_of_nonneg_right this (le_of_lt hstep)

/-- Sampler boundary: in the zero-width case `bmax = tmax` the sampler
returns exactly that value for every draw. -/
lemma getRewardValue_degenerate (p : TrialParameters) (step u : ℚ) (a : ℤ)
    (ha : p.bmax = (a : ℚ) * step) (heq : p.bmax = p.tmax)
    (hstep0 : step ≠ 0) :
    getRewardValue p step u = p.bmax := by
  have htd : p.tmax / step = (a : ℚ) := by rw [← heq, ha]; field_simp
  have hbd : p.bmax / step = (a : ℚ) := by rw [ha]; field_simp
  have hval : getRewardValue p step u =
      (round (u * ((a : ℚ) - (a : ℚ)) + (a : ℚ)) : ℚ) * step := by
    unfold getRewardValue
    rw [htd, hbd]
  rw [hval,
    show u * ((a : ℚ) - (a : ℚ)) + (a : ℚ) = ((a : ℤ) : ℚ) by ring,
    round_intCast, ha]

/-- C5: on a condition whose bracket fields are the multiples `a * step` and
`b * step` of the step size, `getRewardValue` with a uniform draw
`u ∈ [0, 1]` returns a multiple of `step` lying in the inclusive range
`[bmax, tmax]`; in the zero-width case `bmax = tmax` it returns exactly that
value for every draw. -/
theorem claim_C5 (p : TrialParameters) (step u : ℚ) (a b : ℤ)
    (ha : p.bmax = (a : ℚ) * step) (hb : p.tmax = (b : ℚ) * step)
    (hstep : 0 < step) (hab : p.bmax ≤ p.tmax)
    (hu0 : 0 ≤ u) (hu1 : u ≤ 1) :
    (∃ k : ℤ, getRewardValue p step u = (k : ℚ) * step) ∧
    p.bmax ≤ getRewardValue p step u ∧
    getRewardValue p step u ≤ p.tmax ∧
    (p.bmax = p.tmax → getRewardValue p step u = p.bmax) := by
  obtain ⟨hk, hlo, hhi⟩ :=
    getRewardValue_bounds p step u a b ha hb hstep hab hu0 hu1
  exact ⟨hk, hlo, hhi, fun heq =>
    getRewardValue_degenerate p step u a ha heq (ne_of_gt hstep)⟩

theorem claim_C5_witness :
    (∃ k : ℤ, getRewardValue (initialParameters 1000) 50 (1/2) = (k : ℚ) * 50) ∧
    (initialParameters 1000).bmax ≤ getRewardValue (initialParameters 1000) 50 (1/2) ∧
    getRewardValue (initialParameters 1000) 50 (1/2) ≤ (initialParameters 1000).tmax ∧
    ((initialParameters 1000).bmax = (initialParameters 1000).tmax →
      getRewardValue (initialParameters 1000) 50 (1/2) = (initialParameters 1000).bmax) :=
  claim_C5 (initialParameters 1000) 50 (1/2) 0 20
    (by norm_num [initialParameters]) (by norm_num [initialParameters])
    (by norm_num) (by norm_num [initialParameters]) (by norm_num) (by norm_num)

/-- The `conditional_function` of `distractorTrial` (task.js lines 273-276):
the filler trial runs right after the titration trial exactly when
`settings.distractorStart <= settings.variables.count`. -/
def distractorTrialCondition (distractorStart count : ℕ) : Bool :=
  distractorStart ≤ count

/-- Written from the words of the spec's interleaving rule: run the filler
whenever `totalTrialsRun >= distractorStartThreshold` AND `totalTrialsRun`
is even. -/
def distractorClaimedCondition (distractorStart count : ℕ) : Bool :=
  decide (distractorStart ≤ count) && decide (count % 2 = 0)

/-- C4 counterexample: with the source's configured threshold 70 and an odd
trial count 71, the code does run the filler trial, while the claimed
"1 in 2" rule (threshold AND even count) says it must not. -/
theorem claim_C4_cex :
    distractorTrialCondition 70 71 = true ∧
    distractorClaimedCondition 70 71 = false := by
  decide

/-- C4 (amended): a filler trial is run immediately after a titration trial
if and only if `settings.variables.count` has reached
`settings.distractorStart`; the trial count's parity plays no role. -/
theorem claim_C4 (distractorStart count : ℕ) :
    distractorTrialCondition distractorStart count = true ↔
      distractorStart ≤ count := by
  simp [distractorTrialCondition]

/-- The mutable `settings.variables` record built in `prepareSettings`
(task.js lines 400-405).  `stimulus` is an `Option` because
`getStimulousString` returns `undefined` for a distractor-typed condition. -/
structure Variables where
  count : ℕ := 0
  reword : ℚ := 0
  stimulus : Option String := some ""
  number_of_ips : ℕ := 0

/-- The settings object built in `prepareSettings` (task.js lines 353-409):
user constants, the mutable `variables` record (field `vars` here, since
`variables` is a reserved word in Lean), the convergence threshold (equal to
the step size) and the per-condition parameter map.  The two user-defined
stimulus templates are kept as abstract string-valued functions of
`(var, std, t)` resp. `(var, std, p)`. -/
structure Settings where
  posttrialDelay : ℕ := 500
  distractorStart : ℕ := 70
  standard : ℚ := 1000
  step : ℚ := 50
  maximumTrialCount : ℕ := 30
  threshold : ℚ := 50
  vars : Variables := {}
  parameters : String → TrialParameters := fun _ => {}
  stimuliTemporalDelay : ℚ → ℚ → ℚ → String := fun _ _ _ => ""
  stimuliProbabilityDelay : ℚ → ℚ → ℚ → String := fun _ _ _ => ""

/-- `getStimulousString(settings, trialName)` (task.js lines 448-468). -/
def getStimulousString (settings : Settings) (trialName : String) :
    Option String :=
  let parameters := settings.parameters trialName
  if parameters.type = "temporal_delay" then
    some (settings.stimuliTemporalDelay settings.vars.reword
      settings.standard parameters.temporal_delay)
  else if parameters.type = "probability_delay" then
    some (settings.stimuliProbabilityDelay settings.vars.reword
      settings.standard parameters.probability)
  else
    none

/-- The opposite-kind selection of `handleOnDistractorStart`
(task.js lines 588-591). -/
def oppositeType (t : String) : String :=
  if t = "temporal_delay" then "probability_delay"
  else if t = "probability_delay" then "temporal_delay"
  else t

/-- `handleOnDistractorStart(trial)` (task.js lines 584-611) as a state
transformer on the settings object.  The uniform draw of the dummy reward is
the parameter `u`; the library call `jsPsych.randomization.sampleWithReplacement`
over the conditions of the opposite kind is abstracted as the function `pick`
from that kind to the chosen condition name. -/
def handleOnDistractorStart (settings : Settings) (lastTrialName : String)
    (pick : String → String) (u : ℚ) : Settings :=
  let trialType := oppositeType (settings.parameters lastTrialName).type
  let trialName := pick trialType
  let params1 : String → TrialParameters := fun n =>
    if n = "d0" then
      { settings.parameters n with count := (settings.parameters n).count + 1 }
    else
      settings.parameters n
  let settings1 := { settings with parameters := params1 }
  let settings2 := { settings1 with vars :=
    { settings1.vars with
      reword := getRewardValue { tmax := settings.standard, bmax := 0 }
        settings.step u } }
  { settings2 with vars :=
    { settings2.vars with
      stimulus := getStimulousString settings2 trialName } }

/-- C9: a filler (distractor) trial never modifies any condition's bracket
state: every condition's `tmin`, `tmax`, `bmin`, `bmax` and `ip` are
identical before and after `handleOnDistractorStart`; the filler only
increments the `d0` counter and draws its dummy reward by the sampler
formula applied to `tmax = standard`, `bmax = 0` — it never invokes
`updateParameters`. -/
theorem claim_C9 (settings : Settings) (lastTrialName : String)
    (pick : String → String) (u : ℚ) :
    (∀ name,
      ((handleOnDistractorStart settings lastTrialName pick u).parameters
          name).tmin = (settings.parameters name).tmin ∧
      ((handleOnDistractorStart settings lastTrialName pick u).parameters
          name).tmax = (settings.parameters name).tmax ∧
      ((handleOnDistractorStart settings lastTrialName pick u).parameters
          name).bmin = (settings.parameters name).bmin ∧
      ((handleOnDistractorStart settings lastTrialName pick u).parameters
          name).bmax = (settings.parameters name).bmax ∧
      ((handleOnDistractorStart settings lastTrialName pick u).parameters
          name).ip = (settings.parameters name).ip) ∧
    ((handleOnDistractorStart settings lastTrialName pick u).parameters
        "d0").count = (settings.parameters "d0").count + 1 ∧
    (handleOnDistractorStart settings lastTrialName pick u).vars.reword =
      getRewardValue { tmax := settings.standard, bmax := 0 }
        settings.step u := by
  refine ⟨fun name => ?_,
    by simp [handleOnDistractorStart],
    by simp [handleOnDistractorStart]⟩
  by_cases h : name = "d0" <;> simp [handleOnDistractorStart, h]

/-- No two consecutive entries of the list are equal under `eq`. -/
def noAdjacentRepeat (eq : α → α → Bool) : List α → Bool
  | [] => true
  | [_] => true
  | a :: b :: rest => !eq a b && noAdjacentRepeat eq (b :: rest)

/-- Modelled from the spec: `jsPsych.randomization.repeat(array, repetitions)`
is jsPsych library code, not under src/.  Per spec section 4.4 it yields
`repeatsPerCondition` entries for every element; its internal shuffle is
irrelevant here because the result is immediately re-ordered by
`shuffleNoRepeats`, so the repetition is modelled as replication. -/
def repeatEntries (xs : List α) (n : ℕ) : List α :=
  (xs.map (List.replicate n)).flatten

/-- Modelled from the spec: `jsPsych.randomization.shuffleNoRepeats(arr, eq)`
is jsPsych library code, not under src/.  Per spec section 4.4 it draws
random permutations until one has no two consecutive entries equal under
`eq` (reshuffle-on-repeat), with a best-effort fallback when it cannot.  The
stream of random shuffles is modelled by the explicit list `shuffles`: the
first candidate that is a permutation of `l` with no adjacent repeat is
returned, and the fallback is modelled as returning `l` itself. -/
def shuffleNoRepeats (eq : α → α → Bool) [BEq α] (shuffles : List (List α))
    (l : List α) : List α :=
  match shuffles.find? (fun c => c.isPerm l && noAdjacentRepeat eq c) with
  | some c => c
  | none => l

/-- `prepareTrialSequence(settings)` (task.js lines 416-429), with the key
list of the parameter map and the random shuffles explicit; an entry of the
sequence is the `tiral_name` key stored in the timeline variables. -/
def prepareTrialSequence (trialNamesAll : List String)
    (maximumTrialCount : ℕ) (shuffles : List (List String)) : List String :=
  let trialNames := trialNamesAll.filter (fun key => key != "d0")
  let repeatedArray := repeatEntries trialNames maximumTrialCount
  shuffleNoRepeats (fun a b => a == b) shuffles repeatedArray

lemma count_repeatEntries [DecidableEq α] (xs : List α) (n : ℕ) (a : α) :
    (repeatEntries xs n).count a = n * xs.count a := by
  induction xs with
  | nil => simp [repeatEntries]
  | cons x xs ih =>
    unfold repeatEntries at ih ⊢
    by_cases h : x = a <;>
      simp [List.count_cons, List.count_replicate, ih, h, Nat.mul_add]
    omega

lemma shuffleNoRepeats_spec [DecidableEq α] (eq : α → α → Bool)
    (shuffles : List (List α)) (l : List α) :
    (shuffleNoRepeats eq shuffles l = l ∨
      ((shuffleNoRepeats eq shuffles l).Perm l ∧
        noAdjacentRepeat eq (shuffleNoRepeats eq shuffles l) = true)) ∧
    ((∃ c ∈ shuffles, c.isPerm l = true ∧ noAdjacentRepeat eq c = true) →
      noAdjacentRepeat eq (shuffleNoRepeats eq shuffles l) = true) := by
  unfold shuffleNoRepeats
  cases hfind : shuffles.find? (fun c => c.isPerm l && noAdjacentRepeat eq c) with
  | none =>
    refine ⟨Or.inl rfl, fun hex => absurd hex ?_⟩
    rw [List.find?_eq_none] at hfind
    rintro ⟨c, hc, h1, h2⟩
    exact hfind c hc (by simp [h1, h2])
  | some c =>
    have hp := List.find?_some hfind
    rw [Bool.and_eq_true] at hp
    exact ⟨Or.inr ⟨List.isPerm_iff.mp hp.1, hp.2⟩, fun _ => hp.2⟩

lemma count_prepareTrialSequence (trialNamesAll : List String)
    (maximumTrialCount : ℕ) (shuffles : List (List String)) (name : String) :
    (prepareTrialSequence trialNamesAll maximumTrialCount shuffles).count name =
      maximumTrialCount *
        (trialNamesAll.filter (fun key => key != "d0")).count name := by
  unfold prepareTrialSequence
  rcases (shuffleNoRepeats_spec (fun a b => a == b) shuffles
      (repeatEntries (trialNamesAll.filter (fun key => key != "d0"))
        maximumTrialCount)).1 with h | h
  · rw [h, count_repeatEntries]
  · rw [h.1.count_eq, count_repeatEntries]

/-- C7: `prepareTrialSequence` returns a sequence with exactly
`maximumTrialCount` entries for each non-filler condition and zero entries
for the filler condition `d0`; and whenever the modelled stream of random
shuffles contains a valid permutation with no two consecutive equal
condition names, the returned sequence has no two consecutive equal names
(otherwise the model falls back to best-effort placement). -/
theorem claim_C7 (trialNamesAll : List String) (maximumTrialCount : ℕ)
    (shuffles : List (List String)) (hnd : trialNamesAll.Nodup) :
    (∀ name ∈ trialNamesAll, name ≠ "d0" →
      (prepareTrialSequence trialNamesAll maximumTrialCount shuffles).count
        name = maximumTrialCount) ∧
    (prepareTrialSequence trialNamesAll maximumTrialCount shuffles).count
      "d0" = 0 ∧
    ((∃ c ∈ shuffles,
        c.isPerm (repeatEntries
          (trialNamesAll.filter (fun key => key != "d0"))
          maximumTrialCount) = true ∧
        noAdjacentRepeat (fun a b => a == b) c = true) →
      noAdjacentRepeat (fun a b => a == b)
        (prepareTrialSequence trialNamesAll maximumTrialCount shuffles) =
        true) := by
  refine ⟨fun name hmem hne => ?_, ?_, ?_⟩
  · rw [count_prepareTrialSequence]
    have hcnt : (trialNamesAll.filter (fun key => key != "d0")).count name =
        1 := by
      rw [List.count_filter (by simp [hne])]
      exact List.count_eq_one_of_mem hnd hmem
    rw [hcnt, Nat.mul_one]
  · rw [count_prepareTrialSequence]
    have : (trialNamesAll.filter (fun key => key != "d0")).count "d0" = 0 := by
      rw [List.count_eq_zero]
      intro hmem
      have := List.of_mem_filter hmem
      simp at this
    rw [this, Nat.mul_zero]
  · exact (shuffleNoRepeats_spec (fun a b => a == b) shuffles
      (repeatEntries (trialNamesAll.filter (fun key => key != "d0"))
        maximumTrialCount)).2

theorem claim_C7_witness :
    (prepareTrialSequence ["t1", "p1", "d0"] 2
        [["t1", "p1", "t1", "p1"]]).count "t1" = 2 ∧
    (prepareTrialSequence ["t1", "p1", "d0"] 2
        [["t1", "p1", "t1", "p1"]]).count "d0" = 0 ∧
    noAdjacentRepeat (fun a b => a == b)
      (prepareTrialSequence ["t1", "p1", "d0"] 2
        [["t1", "p1", "t1", "p1"]]) = true := by
  have h := claim_C7 ["t1", "p1", "d0"] 2 [["t1", "p1", "t1", "p1"]]
    (by decide)
  exact ⟨h.1 "t1" (by decide) (by decide), h.2.1,
    h.2.2 ⟨["t1", "p1", "t1", "p1"], by decide, by decide, by decide⟩⟩

/-- The fixed consistent subject policy of spec section 8: always prefer the
objectively larger expected value.  `v` is the objective expected value of
the standard option (`standard` itself for a temporal-delay condition,
`standard * p / 100` for a probability condition); the variable option 'A'
is chosen exactly when the offered reward exceeds it. -/
def evPolicy (v reword : ℚ) : String :=
  if v < reword then "A" else "B"

/-- One titration trial under the consistent policy: sample the reward with
the draw `u`, answer by `evPolicy`, update the bracket. -/
def policyStep (v standard threshold step : ℚ) (p : TrialParameters)
    (u : ℚ) : TrialParameters :=
  (updateParameters (evPolicy v (getRewardValue p step u))
    (getRewardValue p step u) p standard threshold).1

/-- Run one titration trial per uniform draw in `us`, under the consistent
policy. -/
def runPolicy (v standard threshold step : ℚ) (p : TrialParameters) :
    List ℚ → TrialParameters
  | [] => p
  | u :: us => runPolicy v standard threshold step
      (policyStep v standard threshold step p u) us

/-- All four bracket fields are integer multiples of the step size. -/
def StepMultiple (step : ℚ) (p : TrialParameters) : Prop :=
  (∃ k : ℤ, p.bmax = (k : ℚ) * step) ∧ (∃ k : ℤ, p.bmin = (k : ℚ) * step) ∧
  (∃ k : ℤ, p.tmin = (k : ℚ) * step) ∧ (∃ k : ℤ, p.tmax = (k : ℚ) * step)

/-- Inductive invariant of the policy-driven run: bracket invariant, the
policy value pinned between `bmin` and `tmin`, and step-quantized fields. -/
def PolicyInv (v standard step : ℚ) (p : TrialParameters) : Prop :=
  BracketInv standard p ∧ p.bmin ≤ v ∧ v ≤ p.tmin ∧ StepMultiple step p

lemma policyInv_applyIpCheck (v S step : ℚ) (q : TrialParameters)
    (r th : ℚ) :
    PolicyInv v S step (applyIpCheck q r th) ↔ PolicyInv v S step q := by
  unfold PolicyInv StepMultiple
  rw [bracketInv_applyIpCheck, applyIpCheck_bmin, applyIpCheck_tmin,
    applyIpCheck_bmax, applyIpCheck_tmax]

lemma policyInv_step (v S th step : ℚ) (p : TrialParameters) (u : ℚ)
    (hInv : PolicyInv v S step p) (hstep : 0 < step)
    (hu0 : 0 ≤ u) (hu1 : u ≤ 1) :
    PolicyInv v S step (policyStep v S th step p u) ∧
    (policyStep v S th step p u).tmax - (policyStep v S th step p u).bmax ≤
      p.tmax - p.bmax := by
  obtain ⟨⟨h0, ⟨hbb, hbt, htt⟩, hS⟩, hbv, hvt,
    ⟨a, ha⟩, ⟨a2, ha2⟩, ⟨a3, ha3⟩, ⟨b, hb⟩⟩ := hInv
  have hab : p.bmax ≤ p.tmax := by linarith
  obtain ⟨⟨k, hk⟩, hrlo, hrhi⟩ :=
    getRewardValue_bounds p step u a b ha hb hstep hab hu0 hu1
  unfold policyStep evPolicy
  set r := getRewardValue p step u with hrdef
  by_cases hv : v < r
  · rw [if_pos hv]
    have hred : (updateParameters "A" r p S th).1 =
        applyIpCheck (updateCaseA r p) r th := by
      simp [updateParameters]
    rw [hred, policyInv_applyIpCheck, applyIpCheck_tmax, applyIpCheck_bmax]
    unfold updateCaseA
    have hnb : ¬ (r < p.bmin) := by linarith
    rw [if_neg hnb]
    by_cases h2 : r ≤ p.tmin
    · rw [if_pos h2]
      unfold PolicyInv BracketInv BracketOrdered StepMultiple
      dsimp only
      exact ⟨⟨⟨h0, ⟨hbb, by linarith, h2⟩, by linarith⟩, hbv, le_of_lt hv,
        ⟨a, ha⟩, ⟨a2, ha2⟩, ⟨k, hk⟩, ⟨a3, ha3⟩⟩, by linarith⟩
    · rw [if_neg h2]
      unfold PolicyInv BracketInv BracketOrdered StepMultiple
      dsimp only
      exact ⟨⟨⟨h0, ⟨hbb, hbt, by linarith⟩, by linarith⟩, hbv, hvt,
        ⟨a, ha⟩, ⟨a2, ha2⟩, ⟨a3, ha3⟩, ⟨k, hk⟩⟩, by linarith⟩
  · rw [if_neg hv]
    have hrv : r ≤ v := not_lt.mp hv
    have hred : (updateParameters "B" r p S th).1 =
        applyIpCheck (updateCaseB r p S) r th := by
      simp [updateParameters]
    rw [hred, policyInv_applyIpCheck, applyIpCheck_tmax, applyIpCheck_bmax]
    unfold updateCaseB
    have hnt : ¬ (p.tmin < r) := by linarith
    rw [if_neg hnt]
    by_cases h2 : p.bmin < r
    · rw [if_pos h2]
      unfold PolicyInv BracketInv BracketOrdered StepMultiple
      dsimp only
      exact ⟨⟨⟨by linarith, ⟨le_of_lt h2, by linarith, htt⟩, hS⟩, hrv,
        hvt, ⟨a2, ha2⟩, ⟨k, hk⟩, ⟨a3, ha3⟩, ⟨b, hb⟩⟩, by linarith⟩
    · rw [if_neg h2]
      unfold PolicyInv BracketInv BracketOrdered StepMultiple
      dsimp only
      exact ⟨⟨⟨by linarith, ⟨not_lt.mp h2, hbt, htt⟩, hS⟩, hbv, hvt,
        ⟨k, hk⟩, ⟨a2, ha2⟩, ⟨a3, ha3⟩, ⟨b, hb⟩⟩, by linarith⟩

lemma policyInv_initial (v S step : ℚ) (m : ℤ) (hv0 : 0 ≤ v) (hvS : v ≤ S)
    (hS : S = (m : ℚ) * step) :
    PolicyInv v S step (initialParameters S) := by
  unfold PolicyInv BracketInv BracketOrdered StepMultiple initialParameters
  dsimp only
  refine ⟨⟨le_refl 0, ⟨le_refl 0, by linarith, le_refl S⟩, le_refl S⟩,
    hv0, hvS, ⟨0, by push_cast; ring⟩, ⟨0, by push_cast; ring⟩,
    ⟨m, hS⟩, ⟨m, hS⟩⟩

lemma policyInv_run (v S th step : ℚ) (us : List ℚ) (p : TrialParameters)
    (hInv : PolicyInv v S step p) (hstep : 0 < step)
    (hus : ∀ u ∈ us, 0 ≤ u ∧ u ≤ 1) :
    PolicyInv v S step (runPolicy v S th step p us) ∧
    (runPolicy v S th step p us).tmax -
      (runPolicy v S th step p us).bmax ≤ p.tmax - p.bmax := by
  induction us generalizing p with
  | nil => exact ⟨hInv, le_refl _⟩
  | cons u us ih =>
    have hu := hus u (by simp)
    have hone := policyInv_step v S th step p u hInv hstep hu.1 hu.2
    have hrest := ih (policyStep v S th step p u) hone.1
      (fun x hx => hus x (by simp [hx]))
    simp only [runPolicy]
    exact ⟨hrest.1, le_trans hrest.2 hone.2⟩

lemma runPolicy_append (v S th step : ℚ) (p : TrialParameters)
    (us₁ us₂ : List ℚ) :
    runPolicy v S th step p (us₁ ++ us₂) =
      runPolicy v S th step (runPolicy v S th step p us₁) us₂ := by
  induction us₁ generalizing p with
  | nil => rfl
  | cons u us ih =>
    simp only [List.cons_append, runPolicy]
    exact ih _

/-- C8 (amended): under the consistent expected-value policy (standard-option
value `v` with `0 ≤ v ≤ standard`) and sampler draws in `[0, 1]`, starting
from the initial bracket with a step-quantized standard amount, the bracket
width `tmax - bmax` is monotonically non-increasing across calls: the width
after any further calls is at most the width after any prefix of them.  The
claimed logarithmic iteration bound is dropped: it does not hold for every
draw sequence (see the counterexample). -/
theorem claim_C8 (v S th step : ℚ) (m : ℤ) (hv0 : 0 ≤ v) (hvS : v ≤ S)
    (hS : S = (m : ℚ) * step) (hstep : 0 < step) (us₁ us₂ : List ℚ)
    (hus : ∀ u ∈ us₁ ++ us₂, 0 ≤ u ∧ u ≤ 1) :
    (runPolicy v S th step (initialParameters S) (us₁ ++ us₂)).tmax -
      (runPolicy v S th step (initialParameters S) (us₁ ++ us₂)).bmax ≤
    (runPolicy v S th step (initialParameters S) us₁).tmax -
      (runPolicy v S th step (initialParameters S) us₁).bmax := by
  rw [runPolicy_append]
  have h1 := policyInv_run v S th step us₁ (initialParameters S)
    (policyInv_initial v S step m hv0 hvS hS) hstep
    (fun u hu => hus u (by simp [hu]))
  exact (policyInv_run v S th step us₂ _ h1.1 hstep
    (fun u hu => hus u (by simp [hu]))).2

theorem claim_C8_witness :
    (runPolicy 1000 1000 50 50 (initialParameters 1000)
        ([(1 : ℚ)/4] ++ [(1 : ℚ)/2])).tmax -
      (runPolicy 1000 1000 50 50 (initialParameters 1000)
        ([(1 : ℚ)/4] ++ [(1 : ℚ)/2])).bmax ≤
    (runPolicy 1000 1000 50 50 (initialParameters 1000) [(1 : ℚ)/4]).tmax -
      (runPolicy 1000 1000 50 50 (initialParameters 1000) [(1 : ℚ)/4]).bmax :=
  claim_C8 1000 1000 50 50 20 (by norm_num) (by norm_num) (by norm_num)
    (by norm_num) [(1 : ℚ)/4] [(1 : ℚ)/2]
    (by
      intro u hu
      simp only [List.cons_append, List.nil_append, List.mem_cons,
        List.mem_singleton, List.not_mem_nil, or_false] at hu
      rcases hu with h | h <;> subst h <;> constructor <;> norm_num)

lemma getRewardValue_initial_zero :
    getRewardValue (initialParameters 1000) 50 0 = 0 := by
  have h : getRewardValue (initialParameters 1000) 50 0 =
      (round ((0 : ℚ) * (1000/50 - 0/50) + 0/50) : ℚ) * 50 := rfl
  rw [h, show (0 : ℚ) * (1000/50 - 0/50) + 0/50 = 0 by norm_num, round_zero]
  norm_num

lemma policyStep_zero :
    policyStep 1000 1000 50 50 (initialParameters 1000) 0 =
      initialParameters 1000 := by
  unfold policyStep
  rw [getRewardValue_initial_zero,
    show evPolicy 1000 0 = "B" by norm_num [evPolicy],
    show (updateParameters "B" 0 (initialParameters 1000) 1000 50).1 =
      applyIpCheck (updateCaseB 0 (initialParameters 1000) 1000) 0 50 by
        simp [updateParameters]]
  norm_num [updateCaseB, applyIpCheck, initialParameters]

lemma runPolicy_zero (n : ℕ) :
    runPolicy 1000 1000 50 50 (initialParameters 1000)
      (List.replicate n 0) = initialParameters 1000 := by
  induction n with
  | zero => rfl
  | succ n ih =>
    simp only [List.replicate_succ, runPolicy, policyStep_zero, ih]

/-- C8 counterexample: with the source configuration (standard 1000, step
50, so `(tmax0 - bmax0) / stepSize = 20` and the claimed logarithmic bound
is about `log2 20 < 5` iterations), the consistent policy facing the valid
draw `u = 0` on every trial of a temporal-delay condition (policy value
`v = standard`, subject always answers 'B') leaves the bracket untouched:
after 100 iterations the width is still 1000 > 50 = stepSize, so the
claimed logarithmic convergence bound is false. -/
theorem claim_C8_cex :
    (runPolicy 1000 1000 50 50 (initialParameters 1000)
        (List.replicate 100 0)).tmax -
      (runPolicy 1000 1000 50 50 (initialParameters 1000)
        (List.replicate 100 0)).bmax = 1000 ∧
    ¬ ((runPolicy 1000 1000 50 50 (initialParameters 1000)
        (List.replicate 100 0)).tmax -
      (runPolicy 1000 1000 50 50 (initialParameters 1000)
        (List.replicate 100 0)).bmax ≤ 50) := by
  rw [runPolicy_zero]
  norm_num [initialParameters]
